import Mathlib

set_option maxHeartbeats 1000000

/-!
Verification of the multi-path fetch-and-race orchestrator of
`Phlashy/cast-and-response` (`src/src/App.tsx`, `fetchWithParallelProxies`,
lines 30-92), against its natural-language specification.

The orchestrator is single-threaded cooperative (browser event loop): the
coordinator observes one completion event at a time and runs the attached
continuations to quiescence before the next event.  We embed it as a small-step
interpreter over an explicit `RaceState`, driven by a list of `RaceEvent`s in
coordinator-observed completion order:

* `fetchOk i`      - path `i`'s `fetch` resolves with an ok response
                     (continuation at App.tsx:58-67 up to the `await text()`);
* `fetchFail i k`  - path `i`'s `fetch` resolves non-ok (`HTTP status` throw,
                     App.tsx:58-60) or rejects with a network fault;
* `bodyDone i b`   - path `i`'s `response.text()` resolves with body `b`
                     (App.tsx:67-68);
* `bodyFail i`     - path `i`'s `response.text()` rejects;
* `timeout`        - the 45000 ms `setTimeout` fires (App.tsx:71-73);
* `externalAbort`  - the caller's `AbortSignal` fires (App.tsx:50).

Aborting an `AbortController` whose `fetch` (or body read) is still pending
rejects that pending promise; that rejection is part of processing the
aborting event, so a path whose controller was aborted while it was still
fetching can never later produce `fetchOk`.
-/

namespace CastAndResponse

/-- JS `encodeURIComponent`: every character other than the JS unreserved set
`A-Z a-z 0-9 - _ . ! ~ * ' ( )` is percent-encoded from its UTF-8 bytes,
with uppercase hex digits. -/
def isUnreservedChar (c : Char) : Bool :=
  c.isAlpha || c.isDigit || c = '-' || c = '_' || c = '.' || c = '!' ||
    c = '~' || c = '*' || c = Char.ofNat 39 || c = '(' || c = ')'

def hexDigit (n : Nat) : Char :=
  if n < 10 then Char.ofNat (48 + n) else Char.ofNat (55 + n)

def percentEncodeByte (b : Nat) : String :=
  String.mk ['%', hexDigit (b / 16), hexDigit (b % 16)]

def utf8Bytes (c : Char) : List Nat :=
  let n := c.toNat
  if n < 128 then [n]
  else if n < 2048 then [192 + n / 64, 128 + n % 64]
  else if n < 65536 then [224 + n / 4096, 128 + (n / 64) % 64, 128 + n % 64]
  else [240 + n / 262144, 128 + (n / 4096) % 64, 128 + (n / 64) % 64,
        128 + n % 64]

def encodeURIComponent (s : String) : String :=
  String.join (s.toList.map fun c =>
    if isUnreservedChar c then String.mk [c]
    else String.join ((utf8Bytes c).map percentEncodeByte))

/-- The `CORS_PROXIES` list (App.tsx:12-18): the fixed ordered list of delivery paths,
each mapping the target url to a concrete fetchable address. -/
def CORS_PROXIES : List (String → String) :=
  [ fun url => "/api/proxy?url=" ++ encodeURIComponent url,
    fun url => "https://api.allorigins.win/raw?url=" ++ encodeURIComponent url,
    fun url => "https://corsproxy.io/?" ++ encodeURIComponent url ]

def NUM_PROXIES : Nat := CORS_PROXIES.length

/-- The global deadline passed to `setTimeout` (App.tsx:72). -/
def GLOBAL_TIMEOUT_MS : Nat := 45000

/-- Message of the thrown `Error('Cancelled')` (App.tsx:36 and App.tsx:85). -/
def cancelledMessage : String := "Cancelled"

/-- The generic aggregate failure thrown at App.tsx:88. -/
def failedMessage : String :=
  "Failed to load feed. The podcast server may be slow or unavailable."

def connectingStatus : String := "Connecting to feed..."

def downloadingStatus : String := "Downloading feed data..."

def parsingStatus : String := "Parsing episodes..."

/-- Lifecycle of one `fetchPromises[i]` (App.tsx:54-69): awaiting `fetch`,
awaiting `response.text()`, fulfilled with the body text, or rejected
(http error, network fault, or abort). -/
inductive PathPhase where
  | fetching
  | reading
  | fulfilled (body : String)
  | rejected
deriving DecidableEq

/-- How a path attempt's `fetch` fails: non-success status code
(`HTTP status` throw at App.tsx:59) or a network-level fault. -/
inductive FailKind where
  | httpStatus (code : Nat)
  | network
deriving DecidableEq

/-- Completion events, in the order the coordinator observes them. -/
inductive RaceEvent where
  | fetchOk (i : Nat)
  | fetchFail (i : Nat) (k : FailKind)
  | bodyDone (i : Nat) (body : String)
  | bodyFail (i : Nat)
  | timeout
  | externalAbort
deriving DecidableEq

/-- What `fetchWithParallelProxies` settles with: the returned body text, or
the message of the thrown `Error`. -/
inductive FetchResult where
  | ok (body : String)
  | error (message : String)
deriving DecidableEq

/-- The state of one in-flight call to `fetchWithParallelProxies`:
`n` paths (`CORS_PROXIES.length` in the source), the per-path promise phases,
the per-path `AbortController` aborted flags (App.tsx:42), the shared
`winningIndex` slot (App.tsx:43, `-1` until a winner is recorded), the caller
signal (presence and `signal.aborted`), the `onStatus` emissions in order,
whether the `abortAll` listener is currently registered (App.tsx:50 / 90),
and the settled result of the outer promise, `none` while pending. -/
structure RaceState where
  n : Nat
  phases : Nat → PathPhase
  aborted : Nat → Bool
  winningIndex : Int
  signalPresent : Bool
  signalAborted : Bool
  statuses : List String
  listenerActive : Bool
  resolved : Option FetchResult

/-- Pointwise update of the phase table. -/
def setPhase (f : Nat → PathPhase) (i : Nat) (p : PathPhase) :
    Nat → PathPhase :=
  fun j => if j = i then p else f j

/-- Aborting a controller rejects that path's still-pending promise; a
settled promise is unaffected. -/
def rejectPendingPhase : PathPhase → PathPhase
  | .fetching => .rejected
  | .reading => .rejected
  | p => p

/-- The `abortAll` closure (App.tsx:46): abort every one of the `n` proxy controllers. -/
def abortAllCtrl (s : RaceState) : RaceState :=
  { s with
    aborted := fun j => if j < s.n then true else s.aborted j,
    phases := fun j =>
      if j < s.n then rejectPendingPhase (s.phases j) else s.phases j }

/-- The `abortLosers` closure (App.tsx:47-49): abort every controller whose index is not
the current `winningIndex`. -/
def abortLosers (s : RaceState) : RaceState :=
  { s with
    aborted := fun j =>
      if j < s.n ∧ (j : Int) ≠ s.winningIndex then true else s.aborted j,
    phases := fun j =>
      if j < s.n ∧ (j : Int) ≠ s.winningIndex then
        rejectPendingPhase (s.phases j)
      else s.phases j }

/-- All of `Promise.any`'s inputs have rejected. -/
def allSettledRejected (s : RaceState) : Bool :=
  (List.range s.n).all fun i => decide (s.phases i = PathPhase.rejected)

/-- The `catch` block (App.tsx:83-88): `Cancelled` if the caller signal is
present and aborted, otherwise the generic aggregate message. -/
def catchResult (s : RaceState) : FetchResult :=
  if s.signalPresent && s.signalAborted then .error cancelledMessage
  else .error failedMessage

/-- If the outer promise is still pending and every `fetchPromises[i]` has
rejected, `Promise.any` rejects with `AggregateError`, the `catch` block
produces the result and the `finally` deregisters the listener. -/
def checkSettleAll (s : RaceState) : RaceState :=
  if s.resolved.isNone && allSettledRejected s then
    { s with resolved := some (catchResult s), listenerActive := false }
  else s

/-- Path `i`'s `fetch` resolved ok (App.tsx:56-66): record `winningIndex := i`,
run `abortLosers`, emit the downloading status, and start `response.text()`.
This continuation runs whenever the fetch promise fulfills, even if the outer
promise already settled (e.g. by timeout). -/
def onFetchOk (s : RaceState) (i : Nat) : RaceState :=
  let s1 := { s with winningIndex := (i : Int) }
  let s2 := abortLosers s1
  let s3 := { s2 with
    phases := setPhase s2.phases i .reading,
    statuses := s2.statuses ++ [downloadingStatus] }
  checkSettleAll s3

/-- Path `i`'s promise rejects (http error, network fault, or body-read
failure): it settles as rejected and `Promise.any` is consulted. -/
def rejectPath (s : RaceState) (i : Nat) : RaceState :=
  checkSettleAll { s with phases := setPhase s.phases i .rejected }

/-- Path `i`'s `response.text()` resolved (App.tsx:67-68): the path's promise
fulfills; if the outer promise is still pending, `Promise.any` and then
`Promise.race` fulfill, the parsing status is emitted (App.tsx:81) and the
result is returned, the `finally` deregistering the listener. -/
def onBodyDone (s : RaceState) (i : Nat) (body : String) : RaceState :=
  let s1 := { s with phases := setPhase s.phases i (.fulfilled body) }
  if s1.resolved.isNone then
    { s1 with
      resolved := some (.ok body),
      statuses := s1.statuses ++ [parsingStatus],
      listenerActive := false }
  else s1

/-- The `setTimeout` fires (App.tsx:71-73): if the outer promise is still
pending, `Promise.race` rejects and the `catch`/`finally` blocks run.  No
proxy controller is touched. -/
def onTimeout (s : RaceState) : RaceState :=
  if s.resolved.isNone then
    { s with resolved := some (catchResult s), listenerActive := false }
  else s

/-- The caller's `AbortSignal` fires: `signal.aborted` becomes true and, if
the `abort` listener is still registered, `abortAll` runs, rejecting every
pending path promise; `Promise.any` is then consulted. -/
def onExternalAbort (s : RaceState) : RaceState :=
  if s.signalPresent then
    let s1 := { s with signalAborted := true }
    checkSettleAll (if s1.listenerActive then abortAllCtrl s1 else s1)
  else s

/-- One coordinator-observed event.  A `fetchOk`/`fetchFail` event is only
possible while the path is still awaiting `fetch` (an aborted controller's
fetch has already rejected), a `bodyDone`/`bodyFail` only while it is reading. -/
def step (s : RaceState) : RaceEvent → RaceState
  | .fetchOk i =>
      if i < s.n ∧ s.phases i = .fetching then onFetchOk s i else s
  | .fetchFail i _ =>
      if i < s.n ∧ s.phases i = .fetching then rejectPath s i else s
  | .bodyDone i body =>
      if i < s.n ∧ s.phases i = .reading then onBodyDone s i body else s
  | .bodyFail i =>
      if i < s.n ∧ s.phases i = .reading then rejectPath s i else s
  | .timeout => onTimeout s
  | .externalAbort => onExternalAbort s

def runEvents (s : RaceState) : List RaceEvent → RaceState
  | [] => s
  | e :: es => runEvents (step s e) es

/-- State right after App.tsx:39-50 has run with a not-yet-aborted (or absent)
signal: connecting status emitted, one fresh controller per path, no winner,
listener registered iff a signal was supplied, outer promise pending. -/
def initState (n : Nat) (sp : Bool) : RaceState :=
  { n := n
    phases := fun _ => .fetching
    aborted := fun _ => false
    winningIndex := -1
    signalPresent := sp
    signalAborted := false
    statuses := [connectingStatus]
    listenerActive := sp
    resolved := none }

/-- The race of `n` paths driven by `events`, with `sp` recording whether a
caller signal was supplied. -/
def raceRun (n : Nat) (sp : Bool) (events : List RaceEvent) : RaceState :=
  runEvents (initState n sp) events

/-- A whole call to `fetchWithParallelProxies`: either the App.tsx:35-37
short-circuit threw `Cancelled` before any attempt was created, or the race
ran, with the concrete proxy addresses computed at App.tsx:55. -/
inductive FetchRun where
  | precancelled
  | raced (proxyUrls : List String) (final : RaceState)

/-- Whole-call semantics of `fetchWithParallelProxies(url, signal, onStatus)`
(App.tsx:30-92) under an
event schedule.  `signal = none` means no signal argument; `signal = some b`
means a signal whose `aborted` flag is `b` at call time. -/
def fetchWithParallelProxies (url : String) (signal : Option Bool)
    (events : List RaceEvent) : FetchRun :=
  if signal = some true then .precancelled
  else .raced (CORS_PROXIES.map fun f => f url)
    (raceRun NUM_PROXIES signal.isSome events)

/-- The settled value of the call's promise (`none` = still pending). -/
def FetchRun.result : FetchRun → Option FetchResult
  | .precancelled => some (.error cancelledMessage)
  | .raced _ s => s.resolved

/-- How many path attempts were launched. -/
def FetchRun.launched : FetchRun → Nat
  | .precancelled => 0
  | .raced urls _ => urls.length

/-- The `onStatus` emissions of the call, in order. -/
def FetchRun.emitted : FetchRun → List String
  | .precancelled => []
  | .raced _ s => s.statuses

/-! ### Basic lemmas about the building blocks -/

theorem setPhase_self (f : Nat → PathPhase) (i : Nat) (p : PathPhase) :
    setPhase f i p i = p := by
  simp [setPhase]

theorem setPhase_other {j i : Nat} (f : Nat → PathPhase) (p : PathPhase)
    (h : j ≠ i) : setPhase f i p j = f j := by
  simp [setPhase, h]

theorem rejectPendingPhase_ne_fetching (p : PathPhase) :
    rejectPendingPhase p ≠ PathPhase.fetching := by
  cases p <;> simp [rejectPendingPhase]

theorem rejectPendingPhase_ne_reading (p : PathPhase) :
    rejectPendingPhase p ≠ PathPhase.reading := by
  cases p <;> simp [rejectPendingPhase]

theorem rejectPendingPhase_fulfilled {p : PathPhase} {b : String}
    (h : rejectPendingPhase p = PathPhase.fulfilled b) :
    p = PathPhase.fulfilled b := by
  cases p <;> simpa [rejectPendingPhase] using h

theorem allSettledRejected_iff (s : RaceState) :
    allSettledRejected s = true ↔
      ∀ i, i < s.n → s.phases i = PathPhase.rejected := by
  unfold allSettledRejected
  rw [List.all_eq_true]
  constructor
  · intro h i hi
    exact of_decide_eq_true (h i (List.mem_range.mpr hi))
  · intro h i hi
    exact decide_eq_true (h i (List.mem_range.mp hi))

theorem allSettledRejected_false {s : RaceState} {i : Nat} (hi : i < s.n)
    (hp : s.phases i ≠ PathPhase.rejected) : allSettledRejected s = false := by
  cases h : allSettledRejected s
  · rfl
  · exact absurd ((allSettledRejected_iff s).mp h i hi) hp

theorem checkSettleAll_of_some {s : RaceState} {r : FetchResult}
    (h : s.resolved = some r) : checkSettleAll s = s := by
  simp [checkSettleAll, h]

theorem checkSettleAll_resolved_of_some {s : RaceState} {r : FetchResult}
    (h : s.resolved = some r) : (checkSettleAll s).resolved = some r := by
  rw [checkSettleAll_of_some h]
  exact h

theorem checkSettleAll_of_not_all {s : RaceState}
    (h : allSettledRejected s = false) : checkSettleAll s = s := by
  simp [checkSettleAll, h]

theorem checkSettleAll_of_none_all {s : RaceState} (h1 : s.resolved = none)
    (h2 : allSettledRejected s = true) :
    checkSettleAll s =
      { s with resolved := some (catchResult s), listenerActive := false } := by
  simp [checkSettleAll, h1, h2]

theorem catchResult_shape (s : RaceState) :
    catchResult s = .error cancelledMessage ∨
      catchResult s = .error failedMessage := by
  unfold catchResult
  split
  · exact Or.inl rfl
  · exact Or.inr rfl

theorem catchResult_ne_ok (s : RaceState) (b : String) :
    catchResult s ≠ FetchResult.ok b := by
  unfold catchResult
  split <;> simp

theorem catchResult_cancelled {s : RaceState}
    (h : catchResult s = FetchResult.error cancelledMessage) :
    s.signalAborted = true := by
  unfold catchResult at h
  split at h
  · next hc => exact ((Bool.and_eq_true _ _).mp hc).2
  · exfalso
    have hm : failedMessage = cancelledMessage := by
      injection h
    exact absurd hm (by decide)

/-! ### The reachability invariant of the race coordinator -/

/-- Core invariant of every state reachable from `initState`:
which paths can be in which phase, how the `winningIndex` slot relates to
them, listener bookkeeping, and the shape of statuses and results. -/
structure InvCore (s : RaceState) : Prop where
  sig : s.signalAborted = true → s.signalPresent = true
  abortedSettled : ∀ j, s.aborted j = true → s.phases j ≠ PathPhase.fetching
  readingWinner : ∀ i, s.phases i = PathPhase.reading →
    (i : Int) = s.winningIndex ∧ i < s.n
  fulfilledWinner : ∀ i b, s.phases i = PathPhase.fulfilled b →
    (i : Int) = s.winningIndex ∧ i < s.n
  winnerSpec : s.winningIndex ≠ -1 → ∃ w : Nat, s.winningIndex = (w : Int) ∧
    w < s.n ∧ s.phases w ≠ PathPhase.fetching ∧
    ∀ j, j < s.n → j ≠ w → s.aborted j = true
  listenerOn : s.resolved = none → s.listenerActive = s.signalPresent
  listenerOff : ∀ r, s.resolved = some r → s.listenerActive = false
  okWinner : ∀ b, s.resolved = some (.ok b) → ∃ w : Nat,
    s.winningIndex = (w : Int) ∧ w < s.n ∧ s.phases w = PathPhase.fulfilled b
  fulfilledResolved : ∀ i b, s.phases i = PathPhase.fulfilled b →
    s.resolved ≠ none
  cancelledSig : s.resolved = some (.error cancelledMessage) →
    s.signalAborted = true
  errorShape : ∀ m, s.resolved = some (.error m) →
    m = cancelledMessage ∨ m = failedMessage
  statusesShape :
    (s.statuses = [connectingStatus] ∧ s.winningIndex = -1) ∨
    (s.statuses = [connectingStatus, downloadingStatus] ∧
      s.winningIndex ≠ -1) ∨
    (s.statuses = [connectingStatus, downloadingStatus, parsingStatus] ∧
      s.winningIndex ≠ -1 ∧ ∃ b, s.resolved = some (.ok b))

/-- Full invariant: the core, plus the fact that the race cannot be left
pending once every path promise has rejected. -/
structure Inv (s : RaceState) : Prop where
  core : InvCore s
  settledResolved : 1 ≤ s.n → allSettledRejected s = true → s.resolved ≠ none

theorem inv_checkSettleAll {s : RaceState} (hc : InvCore s) :
    Inv (checkSettleAll s) := by
  by_cases h : (s.resolved.isNone && allSettledRejected s) = true
  · obtain ⟨h1, h2⟩ := (Bool.and_eq_true _ _).mp h
    have hnone : s.resolved = none := Option.isNone_iff_eq_none.mp h1
    rw [checkSettleAll_of_none_all hnone h2]
    refine ⟨⟨hc.sig, hc.abortedSettled, hc.readingWinner, hc.fulfilledWinner,
      hc.winnerSpec, ?_, ?_, ?_, ?_, ?_, ?_, ?_⟩, ?_⟩
    · intro hco
      exact absurd hco (by simp)
    · intro r _
      rfl
    · intro b hb
      exact absurd (Option.some.inj hb) (catchResult_ne_ok s b)
    · intro i b hp
      simp
    · intro hb
      exact catchResult_cancelled (Option.some.inj hb)
    · intro m hm
      have hm' : catchResult s = FetchResult.error m := Option.some.inj hm
      rcases catchResult_shape s with h' | h'
      · rw [h'] at hm'
        exact Or.inl (FetchResult.error.inj hm').symm
      · rw [h'] at hm'
        exact Or.inr (FetchResult.error.inj hm').symm
    · rcases hc.statusesShape with h' | h' | h'
      · exact Or.inl h'
      · exact Or.inr (Or.inl h')
      · exfalso
        obtain ⟨b, hb⟩ := h'.2.2
        rw [hnone] at hb
        exact Option.noConfusion hb
    · intro _ _
      simp
  · rw [Bool.not_eq_true] at h
    have hid : checkSettleAll s = s := by
      simp [checkSettleAll, h]
    rw [hid]
    refine ⟨hc, ?_⟩
    intro hn hall hres
    rw [hres] at h
    simp at h
    rw [hall] at h
    exact Bool.noConfusion h

/-- Explicit form of `onFetchOk` for a real path index: the settle check is a
no-op because the winner's promise is still pending (it is now reading). -/
theorem onFetchOk_eq {s : RaceState} {i : Nat} (hi : i < s.n) :
    onFetchOk s i =
      { s with
        winningIndex := (i : Int),
        aborted := fun j =>
          if j < s.n ∧ (j : Int) ≠ (i : Int) then true else s.aborted j,
        phases := setPhase
          (fun j => if j < s.n ∧ (j : Int) ≠ (i : Int) then
            rejectPendingPhase (s.phases j) else s.phases j) i .reading,
        statuses := s.statuses ++ [downloadingStatus] } := by
  have h0 : onFetchOk s i = checkSettleAll
      { s with
        winningIndex := (i : Int),
        aborted := fun j =>
          if j < s.n ∧ (j : Int) ≠ (i : Int) then true else s.aborted j,
        phases := setPhase
          (fun j => if j < s.n ∧ (j : Int) ≠ (i : Int) then
            rejectPendingPhase (s.phases j) else s.phases j) i .reading,
        statuses := s.statuses ++ [downloadingStatus] } := rfl
  rw [h0]
  apply checkSettleAll_of_not_all
  apply allSettledRejected_false (i := i)
  · exact hi
  · simp [setPhase]

theorem inv_onFetchOk {s : RaceState} {i : Nat} (hI : Inv s) (hi : i < s.n)
    (hf : s.phases i = PathPhase.fetching) : Inv (onFetchOk s i) := by
  have hc := hI.core
  have hwOld : s.winningIndex = -1 := by
    by_contra hw
    obtain ⟨w, hwEq, hwn, hwp, hab⟩ := hc.winnerSpec hw
    by_cases hiw : i = w
    · rw [hiw] at hf
      exact hwp hf
    · exact hc.abortedSettled i (hab i hi hiw) hf
  rw [onFetchOk_eq hi]
  refine ⟨⟨hc.sig, ?_, ?_, ?_, ?_, hc.listenerOn, hc.listenerOff, ?_, ?_,
    hc.cancelledSig, hc.errorShape, ?_⟩, ?_⟩
  · -- abortedSettled
    intro j hj
    dsimp only at hj ⊢
    by_cases hcnd : j < s.n ∧ (j : Int) ≠ (i : Int)
    · have hji : j ≠ i := fun he => hcnd.2 (by rw [he])
      rw [setPhase_other _ _ hji, if_pos hcnd]
      exact rejectPendingPhase_ne_fetching _
    · rw [if_neg hcnd] at hj
      by_cases hji : j = i
      · subst hji
        simp [setPhase]
      · rw [setPhase_other _ _ hji, if_neg hcnd]
        exact hc.abortedSettled j hj
  · -- readingWinner
    intro j hj
    dsimp only at hj ⊢
    by_cases hji : j = i
    · subst hji
      exact ⟨rfl, hi⟩
    · rw [setPhase_other _ _ hji] at hj
      by_cases hcnd : j < s.n ∧ (j : Int) ≠ (i : Int)
      · rw [if_pos hcnd] at hj
        exact absurd hj (rejectPendingPhase_ne_reading _)
      · rw [if_neg hcnd] at hj
        exfalso
        have h1 := (hc.readingWinner j hj).1
        rw [hwOld] at h1
        omega
  · -- fulfilledWinner
    intro j b hj
    dsimp only at hj ⊢
    exfalso
    by_cases hji : j = i
    · subst hji
      simp [setPhase] at hj
    · rw [setPhase_other _ _ hji] at hj
      by_cases hcnd : j < s.n ∧ (j : Int) ≠ (i : Int)
      · rw [if_pos hcnd] at hj
        have h1 := (hc.fulfilledWinner j b (rejectPendingPhase_fulfilled hj)).1
        rw [hwOld] at h1
        omega
      · rw [if_neg hcnd] at hj
        have h1 := (hc.fulfilledWinner j b hj).1
        rw [hwOld] at h1
        omega
  · -- winnerSpec
    intro _
    refine ⟨i, rfl, hi, ?_, ?_⟩
    · simp [setPhase]
    · intro j hjn hji
      dsimp only
      rw [if_pos ⟨hjn, by exact_mod_cast hji⟩]
  · -- okWinner
    intro b hb
    exfalso
    obtain ⟨w, hw1, _, _⟩ := hc.okWinner b hb
    rw [hwOld] at hw1
    omega
  · -- fulfilledResolved
    intro j b hj
    dsimp only at hj ⊢
    by_cases hji : j = i
    · subst hji
      simp [setPhase] at hj
    · rw [setPhase_other _ _ hji] at hj
      by_cases hcnd : j < s.n ∧ (j : Int) ≠ (i : Int)
      · rw [if_pos hcnd] at hj
        exact hc.fulfilledResolved j b (rejectPendingPhase_fulfilled hj)
      · rw [if_neg hcnd] at hj
        exact hc.fulfilledResolved j b hj
  · -- statusesShape
    rcases hc.statusesShape with h' | h' | h'
    · refine Or.inr (Or.inl ⟨?_, ?_⟩)
      · dsimp only
        rw [h'.1]
        rfl
      · dsimp only
        omega
    · exact absurd hwOld h'.2
    · exact absurd hwOld h'.2.1
  · -- settledResolved
    intro hn hall
    intro _
    have h1 := (allSettledRejected_iff _).mp hall i hi
    simp [setPhase] at h1

theorem inv_rejectPath {s : RaceState} {i : Nat} (hI : Inv s) (hi : i < s.n)
    (hp : ∀ b, s.phases i ≠ PathPhase.fulfilled b) : Inv (rejectPath s i) := by
  have hc := hI.core
  unfold rejectPath
  apply inv_checkSettleAll
  refine ⟨hc.sig, ?_, ?_, ?_, ?_, hc.listenerOn, hc.listenerOff, ?_, ?_,
    hc.cancelledSig, hc.errorShape, hc.statusesShape⟩
  · intro j hj
    dsimp only at hj ⊢
    by_cases hji : j = i
    · subst hji
      simp [setPhase]
    · rw [setPhase_other _ _ hji]
      exact hc.abortedSettled j hj
  · intro j hj
    dsimp only at hj ⊢
    by_cases hji : j = i
    · subst hji
      simp [setPhase] at hj
    · rw [setPhase_other _ _ hji] at hj
      exact hc.readingWinner j hj
  · intro j b hj
    dsimp only at hj ⊢
    by_cases hji : j = i
    · subst hji
      simp [setPhase] at hj
    · rw [setPhase_other _ _ hji] at hj
      exact hc.fulfilledWinner j b hj
  · intro hw
    obtain ⟨w, hwEq, hwn, hwp, hab⟩ := hc.winnerSpec hw
    refine ⟨w, hwEq, hwn, ?_, hab⟩
    dsimp only
    by_cases hwi : w = i
    · subst hwi
      simp [setPhase]
    · rw [setPhase_other _ _ hwi]
      exact hwp
  · intro b hb
    obtain ⟨w, h1, h2, h3⟩ := hc.okWinner b hb
    refine ⟨w, h1, h2, ?_⟩
    dsimp only
    have hwi : w ≠ i := by
      intro he
      rw [he] at h3
      exact hp b h3
    rw [setPhase_other _ _ hwi]
    exact h3
  · intro j b hj
    dsimp only at hj
    by_cases hji : j = i
    · subst hji
      simp [setPhase] at hj
    · rw [setPhase_other _ _ hji] at hj
      exact hc.fulfilledResolved j b hj

theorem inv_onBodyDone {s : RaceState} {i : Nat} {b : String} (hI : Inv s)
    (hi : i < s.n) (hr : s.phases i = PathPhase.reading) :
    Inv (onBodyDone s i b) := by
  have hc := hI.core
  have hwin := hc.readingWinner i hr
  rcases hres : s.resolved with _ | r
  · have he : onBodyDone s i b =
        { s with
          phases := setPhase s.phases i (.fulfilled b),
          resolved := some (.ok b),
          statuses := s.statuses ++ [parsingStatus],
          listenerActive := false } := by
      simp [onBodyDone, hres]
    rw [he]
    refine ⟨⟨hc.sig, ?_, ?_, ?_, ?_, ?_, ?_, ?_, ?_, ?_, ?_, ?_⟩, ?_⟩
    · intro j hj
      dsimp only at hj ⊢
      by_cases hji : j = i
      · subst hji
        simp [setPhase]
      · rw [setPhase_other _ _ hji]
        exact hc.abortedSettled j hj
    · intro j hj
      dsimp only at hj ⊢
      by_cases hji : j = i
      · subst hji
        simp [setPhase] at hj
      · rw [setPhase_other _ _ hji] at hj
        exact hc.readingWinner j hj
    · intro j b' hj
      dsimp only at hj ⊢
      by_cases hji : j = i
      · subst hji
        exact hwin
      · rw [setPhase_other _ _ hji] at hj
        exact hc.fulfilledWinner j b' hj
    · intro _
      refine ⟨i, hwin.1.symm, hi, ?_, ?_⟩
      · simp [setPhase]
      · intro j hjn hji
        have hw : s.winningIndex ≠ -1 := by
          rw [← hwin.1]
          omega
        obtain ⟨w, hwEq, hwn, hwp, hab⟩ := hc.winnerSpec hw
        have hwi : w = i := by
          have := hwin.1
          rw [hwEq] at this
          exact_mod_cast this.symm
        subst hwi
        exact hab j hjn hji
    · intro hco
      exact absurd hco (by simp)
    · intro r _
      rfl
    · intro b' hb'
      have hbb : b' = b := by
        have := Option.some.inj hb'
        exact (FetchResult.ok.inj this).symm
      subst hbb
      refine ⟨i, hwin.1.symm, hi, by simp [setPhase]⟩
    · intro j b' hj
      simp
    · intro hb'
      exact absurd (Option.some.inj hb') (by simp)
    · intro m hm
      exact absurd (Option.some.inj hm) (by simp)
    · rcases hc.statusesShape with h' | h' | h'
      · exfalso
        rw [h'.2] at hwin
        omega
      · refine Or.inr (Or.inr ⟨?_, ?_, b, rfl⟩)
        · dsimp only
          rw [h'.1]
          rfl
        · exact h'.2
      · exfalso
        obtain ⟨b', hb'⟩ := h'.2.2
        rw [hres] at hb'
        exact Option.noConfusion hb'
    · intro _ _
      simp
  · have he : onBodyDone s i b =
        { s with phases := setPhase s.phases i (.fulfilled b) } := by
      simp [onBodyDone, hres]
    rw [he]
    refine ⟨⟨hc.sig, ?_, ?_, ?_, ?_, hc.listenerOn, hc.listenerOff, ?_, ?_,
      hc.cancelledSig, hc.errorShape, hc.statusesShape⟩, ?_⟩
    · intro j hj
      dsimp only at hj ⊢
      by_cases hji : j = i
      · subst hji
        simp [setPhase]
      · rw [setPhase_other _ _ hji]
        exact hc.abortedSettled j hj
    · intro j hj
      dsimp only at hj ⊢
      by_cases hji : j = i
      · subst hji
        simp [setPhase] at hj
      · rw [setPhase_other _ _ hji] at hj
        exact hc.readingWinner j hj
    · intro j b' hj
      dsimp only at hj ⊢
      by_cases hji : j = i
      · subst hji
        exact hwin
      · rw [setPhase_other _ _ hji] at hj
        exact hc.fulfilledWinner j b' hj
    · intro hw
      obtain ⟨w, hwEq, hwn, hwp, hab⟩ := hc.winnerSpec hw
      refine ⟨w, hwEq, hwn, ?_, hab⟩
      dsimp only
      by_cases hwi : w = i
      · subst hwi
        simp [setPhase]
      · rw [setPhase_other _ _ hwi]
        exact hwp
    · intro b' hb'
      obtain ⟨w, h1, h2, h3⟩ := hc.okWinner b' hb'
      refine ⟨w, h1, h2, ?_⟩
      dsimp only
      have hwi : w ≠ i := by
        intro hwe
        rw [hwe, hr] at h3
        exact PathPhase.noConfusion h3
      rw [setPhase_other _ _ hwi]
      exact h3
    · intro j b' hj
      dsimp only at hj
      rw [hres]
      simp
    · intro hn hall
      rw [hres]
      simp

theorem inv_onTimeout {s : RaceState} (hI : Inv s) : Inv (onTimeout s) := by
  have hc := hI.core
  rcases hres : s.resolved with _ | r
  · have he : onTimeout s =
        { s with
          resolved := some (catchResult s), listenerActive := false } := by
      simp [onTimeout, hres]
    rw [he]
    refine ⟨⟨hc.sig, hc.abortedSettled, hc.readingWinner, hc.fulfilledWinner,
      hc.winnerSpec, ?_, ?_, ?_, ?_, ?_, ?_, ?_⟩, ?_⟩
    · intro hco
      exact absurd hco (by simp)
    · intro r _
      rfl
    · intro b hb
      exact absurd (Option.some.inj hb) (catchResult_ne_ok s b)
    · intro i b hp
      simp
    · intro hb
      exact catchResult_cancelled (Option.some.inj hb)
    · intro m hm
      have hm' : catchResult s = FetchResult.error m := Option.some.inj hm
      rcases catchResult_shape s with h' | h'
      · rw [h'] at hm'
        exact Or.inl (FetchResult.error.inj hm').symm
      · rw [h'] at hm'
        exact Or.inr (FetchResult.error.inj hm').symm
    · rcases hc.statusesShape with h' | h' | h'
      · exact Or.inl h'
      · exact Or.inr (Or.inl h')
      · exfalso
        obtain ⟨b, hb⟩ := h'.2.2
        rw [hres] at hb
        exact Option.noConfusion hb
    · intro _ _
      simp
  · have he : onTimeout s = s := by
      simp [onTimeout, hres]
    rw [he]
    exact hI

theorem inv_onExternalAbort {s : RaceState} (hI : Inv s) :
    Inv (onExternalAbort s) := by
  have hc := hI.core
  by_cases hsp : s.signalPresent
  · by_cases hl : s.listenerActive
    · have he : onExternalAbort s =
          checkSettleAll (abortAllCtrl { s with signalAborted := true }) := by
        simp [onExternalAbort, hsp, hl]
      rw [he]
      apply inv_checkSettleAll
      refine ⟨?_, ?_, ?_, ?_, ?_, ?_, hc.listenerOff, ?_, ?_, ?_,
        hc.errorShape, hc.statusesShape⟩
      · intro _
        exact hsp
      · intro j hj
        dsimp only [abortAllCtrl] at hj ⊢
        by_cases hjn : j < s.n
        · rw [if_pos hjn]
          exact rejectPendingPhase_ne_fetching _
        · rw [if_neg hjn] at hj
          rw [if_neg hjn]
          exact hc.abortedSettled j hj
      · intro j hj
        dsimp only [abortAllCtrl] at hj ⊢
        by_cases hjn : j < s.n
        · rw [if_pos hjn] at hj
          exact absurd hj (rejectPendingPhase_ne_reading _)
        · rw [if_neg hjn] at hj
          exact absurd (hc.readingWinner j hj).2 hjn
      · intro j b hj
        dsimp only [abortAllCtrl] at hj ⊢
        by_cases hjn : j < s.n
        · rw [if_pos hjn] at hj
          exact hc.fulfilledWinner j b (rejectPendingPhase_fulfilled hj)
        · rw [if_neg hjn] at hj
          exact hc.fulfilledWinner j b hj
      · intro hw
        obtain ⟨w, hwEq, hwn, hwp, hab⟩ := hc.winnerSpec hw
        refine ⟨w, hwEq, hwn, ?_, ?_⟩
        · dsimp only [abortAllCtrl]
          rw [if_pos hwn]
          exact rejectPendingPhase_ne_fetching _
        · intro j hjn hji
          have hjn' : j < s.n := hjn
          dsimp only [abortAllCtrl]
          rw [if_pos hjn']
      · intro h
        exact hc.listenerOn h
      · intro b hb
        obtain ⟨w, h1, h2, h3⟩ := hc.okWinner b hb
        refine ⟨w, h1, h2, ?_⟩
        dsimp only [abortAllCtrl]
        rw [if_pos h2, h3]
        rfl
      · intro j b hj
        dsimp only [abortAllCtrl] at hj
        by_cases hjn : j < s.n
        · rw [if_pos hjn] at hj
          exact hc.fulfilledResolved j b (rejectPendingPhase_fulfilled hj)
        · rw [if_neg hjn] at hj
          exact hc.fulfilledResolved j b hj
      · intro _
        rfl
    · have he : onExternalAbort s =
          checkSettleAll { s with signalAborted := true } := by
        simp [onExternalAbort, hsp, hl]
      rw [he]
      apply inv_checkSettleAll
      have hres : ∃ r, s.resolved = some r := by
        rcases hres : s.resolved with _ | r
        · exact absurd (hc.listenerOn hres) (by rw [hsp]; exact fun h => hl (by rw [h]))
        · exact ⟨r, rfl⟩
      refine ⟨fun _ => hsp, hc.abortedSettled, hc.readingWinner,
        hc.fulfilledWinner, hc.winnerSpec, ?_, hc.listenerOff, hc.okWinner,
        hc.fulfilledResolved, fun _ => rfl, hc.errorShape, hc.statusesShape⟩
      intro h
      obtain ⟨r, hr⟩ := hres
      rw [hr] at h
      exact Option.noConfusion h
  · have he : onExternalAbort s = s := by
      simp [onExternalAbort, hsp]
    rw [he]
    exact hI

theorem inv_step {s : RaceState} (hI : Inv s) (e : RaceEvent) :
    Inv (step s e) := by
  cases e with
  | fetchOk i =>
    dsimp only [step]
    by_cases h : i < s.n ∧ s.phases i = PathPhase.fetching
    · rw [if_pos h]
      exact inv_onFetchOk hI h.1 h.2
    · rw [if_neg h]
      exact hI
  | fetchFail i k =>
    dsimp only [step]
    by_cases h : i < s.n ∧ s.phases i = PathPhase.fetching
    · rw [if_pos h]
      refine inv_rejectPath hI h.1 fun b hb => ?_
      rw [h.2] at hb
      exact PathPhase.noConfusion hb
    · rw [if_neg h]
      exact hI
  | bodyDone i b =>
    dsimp only [step]
    by_cases h : i < s.n ∧ s.phases i = PathPhase.reading
    · rw [if_pos h]
      exact inv_onBodyDone hI h.1 h.2
    · rw [if_neg h]
      exact hI
  | bodyFail i =>
    dsimp only [step]
    by_cases h : i < s.n ∧ s.phases i = PathPhase.reading
    · rw [if_pos h]
      refine inv_rejectPath hI h.1 fun b hb => ?_
      rw [h.2] at hb
      exact PathPhase.noConfusion hb
    · rw [if_neg h]
      exact hI
  | timeout => exact inv_onTimeout hI
  | externalAbort => exact inv_onExternalAbort hI

theorem inv_init (n : Nat) (sp : Bool) : Inv (initState n sp) := by
  refine ⟨⟨?_, ?_, ?_, ?_, ?_, ?_, ?_, ?_, ?_, ?_, ?_, ?_⟩, ?_⟩
  · intro h
    exact Bool.noConfusion h
  · intro j hj
    exact Bool.noConfusion hj
  · intro i h
    exact PathPhase.noConfusion h
  · intro i b h
    exact PathPhase.noConfusion h
  · intro h
    exact absurd rfl h
  · intro _
    rfl
  · intro r h
    exact Option.noConfusion h
  · intro b h
    exact Option.noConfusion h
  · intro i b h
    exact PathPhase.noConfusion h
  · intro h
    exact Option.noConfusion h
  · intro m h
    exact Option.noConfusion h
  · exact Or.inl ⟨rfl, rfl⟩
  · intro hn hall
    have h0 := (allSettledRejected_iff _).mp hall 0 hn
    exact PathPhase.noConfusion h0

theorem inv_runEvents {s : RaceState} (hI : Inv s) (es : List RaceEvent) :
    Inv (runEvents s es) := by
  induction es generalizing s with
  | nil => exact hI
  | cons e es ih => exact ih (inv_step hI e)

theorem inv_raceRun (n : Nat) (sp : Bool) (events : List RaceEvent) :
    Inv (raceRun n sp events) :=
  inv_runEvents (inv_init n sp) events

/-! ### Constancy and monotonicity through the run -/

theorem checkSettleAll_n (s : RaceState) : (checkSettleAll s).n = s.n := by
  unfold checkSettleAll
  split <;> rfl

theorem checkSettleAll_signalPresent (s : RaceState) :
    (checkSettleAll s).signalPresent = s.signalPresent := by
  unfold checkSettleAll
  split <;> rfl

theorem onFetchOk_n (s : RaceState) (i : Nat) : (onFetchOk s i).n = s.n := by
  unfold onFetchOk
  rw [checkSettleAll_n]
  try rfl

theorem rejectPath_n (s : RaceState) (i : Nat) : (rejectPath s i).n = s.n := by
  unfold rejectPath
  rw [checkSettleAll_n]
  try rfl

theorem onBodyDone_n (s : RaceState) (i : Nat) (b : String) :
    (onBodyDone s i b).n = s.n := by
  unfold onBodyDone
  dsimp only
  split <;> rfl

theorem onTimeout_n (s : RaceState) : (onTimeout s).n = s.n := by
  unfold onTimeout
  split <;> rfl

theorem onExternalAbort_n (s : RaceState) : (onExternalAbort s).n = s.n := by
  unfold onExternalAbort
  dsimp only
  split
  · split <;> (rw [checkSettleAll_n]; try rfl)
  · rfl

theorem step_n (s : RaceState) (e : RaceEvent) : (step s e).n = s.n := by
  cases e with
  | fetchOk i =>
    dsimp only [step]
    split
    · exact onFetchOk_n s i
    · rfl
  | fetchFail i k =>
    dsimp only [step]
    split
    · exact rejectPath_n s i
    · rfl
  | bodyDone i b =>
    dsimp only [step]
    split
    · exact onBodyDone_n s i b
    · rfl
  | bodyFail i =>
    dsimp only [step]
    split
    · exact rejectPath_n s i
    · rfl
  | timeout => exact onTimeout_n s
  | externalAbort => exact onExternalAbort_n s

theorem onFetchOk_signalPresent (s : RaceState) (i : Nat) :
    (onFetchOk s i).signalPresent = s.signalPresent := by
  unfold onFetchOk
  rw [checkSettleAll_signalPresent]
  try rfl

theorem rejectPath_signalPresent (s : RaceState) (i : Nat) :
    (rejectPath s i).signalPresent = s.signalPresent := by
  unfold rejectPath
  rw [checkSettleAll_signalPresent]
  try rfl

theorem onBodyDone_signalPresent (s : RaceState) (i : Nat) (b : String) :
    (onBodyDone s i b).signalPresent = s.signalPresent := by
  unfold onBodyDone
  dsimp only
  split <;> rfl

theorem onTimeout_signalPresent (s : RaceState) :
    (onTimeout s).signalPresent = s.signalPresent := by
  unfold onTimeout
  split <;> rfl

theorem onExternalAbort_signalPresent (s : RaceState) :
    (onExternalAbort s).signalPresent = s.signalPresent := by
  unfold onExternalAbort
  dsimp only
  split
  · split <;> (rw [checkSettleAll_signalPresent]; try rfl)
  · rfl

theorem step_signalPresent (s : RaceState) (e : RaceEvent) :
    (step s e).signalPresent = s.signalPresent := by
  cases e with
  | fetchOk i =>
    dsimp only [step]
    split
    · exact onFetchOk_signalPresent s i
    · rfl
  | fetchFail i k =>
    dsimp only [step]
    split
    · exact rejectPath_signalPresent s i
    · rfl
  | bodyDone i b =>
    dsimp only [step]
    split
    · exact onBodyDone_signalPresent s i b
    · rfl
  | bodyFail i =>
    dsimp only [step]
    split
    · exact rejectPath_signalPresent s i
    · rfl
  | timeout => exact onTimeout_signalPresent s
  | externalAbort => exact onExternalAbort_signalPresent s


theorem runEvents_n (s : RaceState) (es : List RaceEvent) :
    (runEvents s es).n = s.n := by
  induction es generalizing s with
  | nil => rfl
  | cons e es ih => rw [runEvents, ih, step_n]

theorem runEvents_signalPresent (s : RaceState) (es : List RaceEvent) :
    (runEvents s es).signalPresent = s.signalPresent := by
  induction es generalizing s with
  | nil => rfl
  | cons e es ih => rw [runEvents, ih, step_signalPresent]

theorem raceRun_n (n : Nat) (sp : Bool) (events : List RaceEvent) :
    (raceRun n sp events).n = n :=
  runEvents_n _ _

theorem raceRun_signalPresent (n : Nat) (sp : Bool) (events : List RaceEvent) :
    (raceRun n sp events).signalPresent = sp :=
  runEvents_signalPresent _ _

/-- Once the outer promise has settled, its value never changes. -/
theorem step_resolved_some {s : RaceState} {r : FetchResult} (e : RaceEvent)
    (h : s.resolved = some r) : (step s e).resolved = some r := by
  cases e with
  | fetchOk i =>
    dsimp only [step]
    split
    · exact checkSettleAll_resolved_of_some h
    · exact h
  | fetchFail i k =>
    dsimp only [step]
    split
    · exact checkSettleAll_resolved_of_some h
    · exact h
  | bodyDone i b =>
    dsimp only [step]
    split
    · simp [onBodyDone, h]
    · exact h
  | bodyFail i =>
    dsimp only [step]
    split
    · exact checkSettleAll_resolved_of_some h
    · exact h
  | timeout =>
    dsimp only [step]
    simp [onTimeout, h]
  | externalAbort =>
    dsimp only [step]
    unfold onExternalAbort
    dsimp only
    split
    · split
      · exact checkSettleAll_resolved_of_some h
      · exact checkSettleAll_resolved_of_some h
    · exact h

theorem runEvents_resolved_some {s : RaceState} {r : FetchResult}
    (es : List RaceEvent) (h : s.resolved = some r) :
    (runEvents s es).resolved = some r := by
  induction es generalizing s with
  | nil => exact h
  | cons e es ih => exact ih (step_resolved_some e h)

theorem runEvents_append (s : RaceState) (t1 t2 : List RaceEvent) :
    runEvents s (t1 ++ t2) = runEvents (runEvents s t1) t2 := by
  induction t1 generalizing s with
  | nil => rfl
  | cons e es ih => rw [List.cons_append, runEvents, runEvents, ih]

theorem checkSettleAll_winningIndex (s : RaceState) :
    (checkSettleAll s).winningIndex = s.winningIndex := by
  unfold checkSettleAll
  split <;> rfl

theorem allSettledRejected_checkSettleAll (s : RaceState) :
    allSettledRejected (checkSettleAll s) = allSettledRejected s := by
  unfold checkSettleAll
  split <;> rfl

theorem rejectPath_winningIndex (s : RaceState) (i : Nat) :
    (rejectPath s i).winningIndex = s.winningIndex := by
  unfold rejectPath
  rw [checkSettleAll_winningIndex]
  try rfl

theorem onBodyDone_winningIndex (s : RaceState) (i : Nat) (b : String) :
    (onBodyDone s i b).winningIndex = s.winningIndex := by
  unfold onBodyDone
  dsimp only
  split <;> rfl

theorem onTimeout_winningIndex (s : RaceState) :
    (onTimeout s).winningIndex = s.winningIndex := by
  unfold onTimeout
  split <;> rfl

theorem onExternalAbort_winningIndex (s : RaceState) :
    (onExternalAbort s).winningIndex = s.winningIndex := by
  unfold onExternalAbort
  dsimp only
  split
  · split <;> (rw [checkSettleAll_winningIndex]; try rfl)
  · rfl

/-- Once `winningIndex` has been written, no later event rewrites it: the
first success aborted every other controller, so no other `fetch` can still
resolve ok, and the winner itself is no longer fetching. -/
theorem step_winningIndex_stable {s : RaceState} (hI : Inv s)
    (hw : s.winningIndex ≠ -1) (e : RaceEvent) :
    (step s e).winningIndex = s.winningIndex := by
  cases e with
  | fetchOk i =>
    dsimp only [step]
    have hng : ¬(i < s.n ∧ s.phases i = PathPhase.fetching) := by
      rintro ⟨hi, hf⟩
      obtain ⟨w, hwEq, hwn, hwp, hab⟩ := hI.core.winnerSpec hw
      by_cases hiw : i = w
      · rw [hiw] at hf
        exact hwp hf
      · exact hI.core.abortedSettled i (hab i hi hiw) hf
    rw [if_neg hng]
  | fetchFail i k =>
    dsimp only [step]
    split
    · exact rejectPath_winningIndex s i
    · rfl
  | bodyDone i b =>
    dsimp only [step]
    split
    · exact onBodyDone_winningIndex s i b
    · rfl
  | bodyFail i =>
    dsimp only [step]
    split
    · exact rejectPath_winningIndex s i
    · rfl
  | timeout => exact onTimeout_winningIndex s
  | externalAbort => exact onExternalAbort_winningIndex s

theorem runEvents_winningIndex_stable {s : RaceState} (hI : Inv s)
    (hw : s.winningIndex ≠ -1) (es : List RaceEvent) :
    (runEvents s es).winningIndex = s.winningIndex := by
  induction es generalizing s with
  | nil => rfl
  | cons e es ih =>
    rw [runEvents]
    have h1 := step_winningIndex_stable hI hw e
    rw [ih (inv_step hI e) (by rw [h1]; exact hw), h1]

/-- Processing the caller's abort signal while the outer promise is still
pending resolves the call with `Cancelled`: the listener is necessarily still
registered, `abortAll` rejects every pending path promise, and the `catch`
block sees `signal.aborted` set. -/
theorem onExternalAbort_resolves {s : RaceState} (hI : Inv s)
    (hsp : s.signalPresent = true) (h : s.resolved = none) :
    (onExternalAbort s).resolved = some (.error cancelledMessage) := by
  have hla : s.listenerActive = true := by
    rw [hI.core.listenerOn h, hsp]
  have he : onExternalAbort s =
      checkSettleAll (abortAllCtrl { s with signalAborted := true }) := by
    simp [onExternalAbort, hsp, hla]
  rw [he]
  have hall :
      allSettledRejected (abortAllCtrl { s with signalAborted := true })
        = true := by
    rw [allSettledRejected_iff]
    intro i hi
    have hi' : i < s.n := hi
    dsimp only [abortAllCtrl]
    rw [if_pos hi']
    cases hp : s.phases i with
    | fetching => rfl
    | reading => rfl
    | rejected => rfl
    | fulfilled b => exact absurd h (hI.core.fulfilledResolved i b hp)
  have hres : (abortAllCtrl { s with signalAborted := true }).resolved
      = none := h
  rw [checkSettleAll_of_none_all hres hall]
  dsimp only
  simp [catchResult, abortAllCtrl, hsp]

/-! ### The claims -/

/-- C1 counterexample: the claim says that whenever at least one attempt
succeeds, `fetch` resolves `Success`.  But the timeout path never aborts the
proxy controllers (see C3), so a proxy can resolve ok after the deadline has
already rejected the call: its continuation still records `winningIndex`,
aborts the losers and reads the body (App.tsx:63-68), the attempt reaches
`fulfilled`, yet the call has already resolved with the generic `Failure`
and the late success is discarded.  Concrete run: timeout fires first, then
path 1's headers arrive and its body completes. -/
theorem c1_counterexample :
    (raceRun 3 false [.timeout, .fetchOk 1,
      .bodyDone 1 "<rss/>"]).phases 1 = PathPhase.fulfilled "<rss/>" ∧
    (raceRun 3 false [.timeout, .fetchOk 1,
      .bodyDone 1 "<rss/>"]).winningIndex = 1 ∧
    (raceRun 3 false [.timeout, .fetchOk 1,
      .bodyDone 1 "<rss/>"]).resolved = some (.error failedMessage) ∧
    (raceRun 3 false [.timeout, .fetchOk 1,
      .bodyDone 1 "<rss/>"]).resolved ≠ some (.ok "<rss/>") := by
  refine ⟨by decide, by decide, by decide, by decide⟩

/-- C1 (amended): for every race with `N ≥ 1` configured delivery paths in
which a success is observed by the coordinator before the race has resolved
- equivalently, whenever `fetch` resolves `Success` - the resolved body is
that of the attempt whose success was observed first (it is the unique
fulfilled attempt, and `wonByIndex` is its completion-order winner, not a
list position), and the cancellation handle of every other attempt has been
triggered.  An attempt may instead complete successfully only after the
deadline has already resolved the call, in which case `fetch` resolves
`Failure` and the late success is discarded (see the counterexample). -/
theorem c1_single_winner (n : Nat) (sp : Bool) (events : List RaceEvent)
    (b : String) (_hn : 1 ≤ n)
    (h : (raceRun n sp events).resolved = some (.ok b)) :
    ∃ w : Nat, w < n ∧
      (raceRun n sp events).winningIndex = (w : Int) ∧
      (raceRun n sp events).phases w = PathPhase.fulfilled b ∧
      (∀ j, j < n → j ≠ w → (raceRun n sp events).aborted j = true) ∧
      (∀ j b', (raceRun n sp events).phases j = PathPhase.fulfilled b' →
        j = w) := by
  have hI := inv_raceRun n sp events
  have hnn := raceRun_n n sp events
  obtain ⟨w, h1, h2, h3⟩ := hI.core.okWinner b h
  have hw : (raceRun n sp events).winningIndex ≠ -1 := by
    rw [h1]
    omega
  obtain ⟨w', hw1, hw2, hw3, hab⟩ := hI.core.winnerSpec hw
  have hww : w' = w := by
    rw [h1] at hw1
    exact_mod_cast hw1.symm
  rw [hww] at hab
  rw [hnn] at h2
  refine ⟨w, h2, h1, h3, ?_, ?_⟩
  · intro j hj hjw
    refine hab j ?_ hjw
    rw [hnn]
    exact hj
  · intro j b' hj
    have h4 := (hI.core.fulfilledWinner j b' hj).1
    rw [h1] at h4
    exact_mod_cast h4

/-- Witness for C1: a concrete run where path 2 wins by completion order
although paths 0 and 1 precede it in the list; both losers' handles end up
triggered. -/
theorem c1_single_winner_witness :
    (1 ≤ 3 ∧ (raceRun 3 false
        [.fetchOk 2, .bodyDone 2 "<rss/>"]).resolved =
      some (.ok "<rss/>")) ∧
    (∃ w : Nat, w < 3 ∧
      (raceRun 3 false [.fetchOk 2, .bodyDone 2 "<rss/>"]).winningIndex =
        (w : Int) ∧
      (raceRun 3 false [.fetchOk 2, .bodyDone 2 "<rss/>"]).phases w =
        PathPhase.fulfilled "<rss/>" ∧
      (∀ j, j < 3 → j ≠ w →
        (raceRun 3 false [.fetchOk 2, .bodyDone 2 "<rss/>"]).aborted j =
          true) ∧
      (∀ j b', (raceRun 3 false [.fetchOk 2, .bodyDone 2 "<rss/>"]).phases j =
        PathPhase.fulfilled b' → j = w)) :=
  ⟨⟨by omega, by decide⟩,
    c1_single_winner 3 false [.fetchOk 2, .bodyDone 2 "<rss/>"] "<rss/>"
      (by omega) (by decide)⟩

/-- C2 counterexample: the claim says a deadline expiry yields a `Failure`
whose classified reason is `Timeout`, distinguishable from the
`AllPathsFailed` reason.  In the code the `catch` block at App.tsx:83-88
swallows the internal `Timeout` error and rethrows the same generic message
used when every path fails, so the two outcomes are identical and the reason
is not `Timeout`. -/
theorem c2_counterexample :
    (raceRun 3 false [.timeout]).resolved = some (.error failedMessage) ∧
    (raceRun 3 false [.fetchFail 0 .network, .fetchFail 1 .network,
      .fetchFail 2 .network]).resolved = some (.error failedMessage) ∧
    (raceRun 3 false [.timeout]).resolved ≠ some (.error "Timeout") := by
  refine ⟨by decide, by decide, by decide⟩

/-- C2 (amended): if the fixed 45000 ms global deadline elapses before any
attempt succeeds (and no cancellation was requested), `fetch` resolves with
the same generic `Failure` message that an all-paths-failed run produces;
the caller cannot distinguish the two conditions. -/
theorem c2_amended_timeout_indistinguishable (s : RaceState)
    (h1 : s.resolved = none) (h2 : s.signalAborted = false) :
    (step s RaceEvent.timeout).resolved = some (.error failedMessage) ∧
    GLOBAL_TIMEOUT_MS = 45000 := by
  constructor
  · simp [step, onTimeout, h1, catchResult, h2]
  · rfl

/-- Witness for the amended C2 at the freshly-launched race state. -/
theorem c2_amended_timeout_indistinguishable_witness :
    ((initState 3 false).resolved = none ∧
      (initState 3 false).signalAborted = false) ∧
    ((step (initState 3 false) RaceEvent.timeout).resolved =
        some (.error failedMessage) ∧
      GLOBAL_TIMEOUT_MS = 45000) :=
  ⟨⟨rfl, rfl⟩, c2_amended_timeout_indistinguishable (initState 3 false)
    rfl rfl⟩

/-- C3 counterexample: the claim says that when the deadline fires every
still-pending attempt's cancellation handle is triggered.  In the code the
timeout rejection reaches only the `catch`/`finally` blocks (App.tsx:83-91),
which never abort the proxy controllers: after a bare timeout all three
handles are untriggered and the paths are still in flight. -/
theorem c3_counterexample :
    (raceRun 3 false [.timeout]).resolved = some (.error failedMessage) ∧
    (raceRun 3 false [.timeout]).aborted 0 = false ∧
    (raceRun 3 false [.timeout]).aborted 1 = false ∧
    (raceRun 3 false [.timeout]).aborted 2 = false ∧
    (raceRun 3 false [.timeout]).phases 0 = PathPhase.fetching := by
  refine ⟨by decide, by decide, by decide, by decide, by decide⟩

/-- C3 (amended): when the global deadline fires before any attempt
succeeds, `fetch` resolves `Failure` (with the generic message, see C2) even
if attempts are still pending, but the pending attempts are NOT cancelled:
the timeout step never touches a controller's aborted flag or a path's
phase. -/
theorem c3_amended_timeout_leaves_paths_running (s : RaceState) :
    (step s RaceEvent.timeout).aborted = s.aborted ∧
    (step s RaceEvent.timeout).phases = s.phases ∧
    (s.resolved = none → s.signalAborted = false →
      (step s RaceEvent.timeout).resolved = some (.error failedMessage)) := by
  refine ⟨?_, ?_, ?_⟩
  · dsimp only [step]
    unfold onTimeout
    split <;> rfl
  · dsimp only [step]
    unfold onTimeout
    split <;> rfl
  · intro h1 h2
    simp [step, onTimeout, h1, catchResult, h2]

/-- Witness for the amended C3 at the freshly-launched race state. -/
theorem c3_amended_timeout_leaves_paths_running_witness :
    (initState 3 false).resolved = none ∧
    (initState 3 false).signalAborted = false ∧
    (step (initState 3 false) RaceEvent.timeout).resolved =
      some (.error failedMessage) ∧
    (step (initState 3 false) RaceEvent.timeout).aborted =
      (initState 3 false).aborted :=
  ⟨rfl, rfl,
    (c3_amended_timeout_leaves_paths_running (initState 3 false)).2.2 rfl rfl,
    (c3_amended_timeout_leaves_paths_running (initState 3 false)).1⟩

/-- C4: within a single fetch call the shared `winningIndex` slot is written
at most once: once a winner has been recorded (`winningIndex ≠ -1`), no
continuation of the race ever changes it, whatever events follow. -/
theorem c4_winning_index_write_once (n : Nat) (sp : Bool)
    (t1 t2 : List RaceEvent)
    (h : (raceRun n sp t1).winningIndex ≠ -1) :
    (raceRun n sp (t1 ++ t2)).winningIndex =
      (raceRun n sp t1).winningIndex := by
  rw [raceRun, runEvents_append]
  exact runEvents_winningIndex_stable (inv_raceRun n sp t1) h t2

/-- Witness for C4: path 1 wins; later ok completions of paths 2 and 0 and
the timeout do not rewrite the slot. -/
theorem c4_winning_index_write_once_witness :
    (raceRun 3 false [.fetchOk 1]).winningIndex ≠ -1 ∧
    (raceRun 3 false
        ([.fetchOk 1] ++ [.fetchOk 2, .fetchOk 0, .timeout])).winningIndex =
      (raceRun 3 false [.fetchOk 1]).winningIndex :=
  ⟨by decide,
    c4_winning_index_write_once 3 false [.fetchOk 1]
      [.fetchOk 2, .fetchOk 0, .timeout] (by decide)⟩

/-- C5: if every attempt fails (non-success status or network fault) before
the deadline and no cancellation occurred, `fetch` resolves with the generic
aggregate `Failure` (AllPathsFailed); and a single path's failure that leaves
some attempt unsettled never resolves the race by itself. -/
theorem c5_all_paths_failed :
    (∀ (n : Nat) (sp : Bool) (events : List RaceEvent), 1 ≤ n →
      allSettledRejected (raceRun n sp events) = true →
      (raceRun n sp events).signalAborted = false →
      (raceRun n sp events).resolved = some (.error failedMessage)) ∧
    (∀ (s : RaceState) (i : Nat) (k : FailKind), s.resolved = none →
      allSettledRejected (step s (.fetchFail i k)) = false →
      (step s (.fetchFail i k)).resolved = none) := by
  constructor
  · intro n sp events hn hall hsa
    have hI := inv_raceRun n sp events
    have hn' : 1 ≤ (raceRun n sp events).n := by
      rw [raceRun_n]
      exact hn
    have hres := hI.settledResolved hn' hall
    rcases hr : (raceRun n sp events).resolved with _ | r
    · exact absurd hr hres
    · rcases r with b | m
      · exfalso
        obtain ⟨w, h1, h2, h3⟩ := hI.core.okWinner b hr
        have h4 := (allSettledRejected_iff _).mp hall w h2
        rw [h3] at h4
        exact PathPhase.noConfusion h4
      · rcases hI.core.errorShape m hr with hm | hm
        · exfalso
          subst hm
          have h5 := hI.core.cancelledSig hr
          rw [hsa] at h5
          exact Bool.noConfusion h5
        · rw [hm]
  · intro s i k hres hall
    dsimp only [step] at hall ⊢
    by_cases h : i < s.n ∧ s.phases i = PathPhase.fetching
    · rw [if_pos h] at hall ⊢
      unfold rejectPath at hall ⊢
      rw [allSettledRejected_checkSettleAll] at hall
      rw [checkSettleAll_of_not_all hall]
      exact hres
    · rw [if_neg h]
      exact hres

/-- Witness for C5: a run where all three attempts fail resolves with the
generic message, and a first failure alone leaves the race pending. -/
theorem c5_all_paths_failed_witness :
    (1 ≤ 3 ∧
      allSettledRejected (raceRun 3 false [.fetchFail 0 .network,
        .fetchFail 1 (.httpStatus 404), .fetchFail 2 .network]) = true ∧
      (raceRun 3 false [.fetchFail 0 .network, .fetchFail 1 (.httpStatus 404),
        .fetchFail 2 .network]).signalAborted = false ∧
      (raceRun 3 false [.fetchFail 0 .network, .fetchFail 1 (.httpStatus 404),
        .fetchFail 2 .network]).resolved = some (.error failedMessage)) ∧
    ((initState 3 false).resolved = none ∧
      allSettledRejected (step (initState 3 false)
        (.fetchFail 0 .network)) = false ∧
      (step (initState 3 false) (.fetchFail 0 .network)).resolved = none) :=
  ⟨⟨by omega, by decide, by decide,
    c5_all_paths_failed.1 3 false [.fetchFail 0 .network,
      .fetchFail 1 (.httpStatus 404), .fetchFail 2 .network]
      (by omega) (by decide) (by decide)⟩,
   ⟨rfl, by decide,
    c5_all_paths_failed.2 (initState 3 false) 0 .network rfl (by decide)⟩⟩

/-- C6: calling `fetch` with an `externalCancel` handle already in the
cancelled state throws `Cancelled` immediately (App.tsx:35-37): no path
attempt is launched, no proxy address computed, no status emitted. -/
theorem c6_precancelled_short_circuit (url : String)
    (events : List RaceEvent) :
    fetchWithParallelProxies url (some true) events = .precancelled ∧
    FetchRun.result (fetchWithParallelProxies url (some true) events) =
      some (.error cancelledMessage) ∧
    FetchRun.launched (fetchWithParallelProxies url (some true) events) = 0 ∧
    FetchRun.emitted (fetchWithParallelProxies url (some true) events) =
      [] :=
  ⟨rfl, rfl, rfl, rfl⟩

/-- C7: whenever the caller's cancellation is observed while the race is
still pending, the race resolves `Cancelled` at that very step, and the
result survives all later events: an error termination after a cancellation
request always reports `Cancelled`, never the generic aggregate message. -/
theorem c7_cancellation_precedence (n : Nat) (t1 t2 : List RaceEvent)
    (h : (raceRun n true t1).resolved = none) :
    (raceRun n true (t1 ++ RaceEvent.externalAbort :: t2)).resolved =
      some (.error cancelledMessage) := by
  rw [raceRun, runEvents_append]
  simp only [runEvents]
  apply runEvents_resolved_some
  exact onExternalAbort_resolves (inv_raceRun n true t1)
    (raceRun_signalPresent n true t1) h

/-- Witness for C7: cancelling at once, with every path also failing
afterwards, still reports `Cancelled`. -/
theorem c7_cancellation_precedence_witness :
    (raceRun 3 true []).resolved = none ∧
    (raceRun 3 true ([] ++ RaceEvent.externalAbort ::
        [.fetchFail 0 .network, .timeout])).resolved =
      some (.error cancelledMessage) :=
  ⟨rfl, c7_cancellation_precedence 3 [] [.fetchFail 0 .network, .timeout]
    rfl⟩

/-- C8: on every exit path of `fetch` the `externalCancel` listener is
deregistered by the `finally` block: once the call has resolved the listener
is off, and a cancellation signal firing afterwards changes nothing
observable about the completed call (flags, phases, result, statuses and
winner are untouched; only the signal's own aborted bit moves). -/
theorem c8_listener_cleanup (n : Nat) (sp : Bool) (events : List RaceEvent)
    (r : FetchResult) (h : (raceRun n sp events).resolved = some r) :
    (raceRun n sp events).listenerActive = false ∧
    (step (raceRun n sp events) RaceEvent.externalAbort).aborted =
      (raceRun n sp events).aborted ∧
    (step (raceRun n sp events) RaceEvent.externalAbort).phases =
      (raceRun n sp events).phases ∧
    (step (raceRun n sp events) RaceEvent.externalAbort).resolved =
      (raceRun n sp events).resolved ∧
    (step (raceRun n sp events) RaceEvent.externalAbort).statuses =
      (raceRun n sp events).statuses ∧
    (step (raceRun n sp events) RaceEvent.externalAbort).winningIndex =
      (raceRun n sp events).winningIndex := by
  have hI := inv_raceRun n sp events
  have hoff := hI.core.listenerOff r h
  refine ⟨hoff, ?_⟩
  have he : step (raceRun n sp events) RaceEvent.externalAbort =
      onExternalAbort (raceRun n sp events) := rfl
  by_cases hsp : (raceRun n sp events).signalPresent
  · have he2 : onExternalAbort (raceRun n sp events) =
        checkSettleAll { raceRun n sp events with signalAborted := true } := by
      simp [onExternalAbort, hsp, hoff]
    have he3 : checkSettleAll
        { raceRun n sp events with signalAborted := true } =
        { raceRun n sp events with signalAborted := true } :=
      checkSettleAll_of_some (r := r) h
    rw [he, he2, he3]
    exact ⟨rfl, rfl, rfl, rfl, rfl⟩
  · have he2 : onExternalAbort (raceRun n sp events) =
        raceRun n sp events := by
      simp [onExternalAbort, hsp]
    rw [he, he2]
    exact ⟨rfl, rfl, rfl, rfl, rfl⟩

/-- Witness for C8 at a resolved run (timeout resolution with a signal
present). -/
theorem c8_listener_cleanup_witness :
    (raceRun 3 true [.timeout]).resolved = some (.error failedMessage) ∧
    ((raceRun 3 true [.timeout]).listenerActive = false ∧
      (step (raceRun 3 true [.timeout]) RaceEvent.externalAbort).aborted =
        (raceRun 3 true [.timeout]).aborted ∧
      (step (raceRun 3 true [.timeout]) RaceEvent.externalAbort).phases =
        (raceRun 3 true [.timeout]).phases ∧
      (step (raceRun 3 true [.timeout]) RaceEvent.externalAbort).resolved =
        (raceRun 3 true [.timeout]).resolved ∧
      (step (raceRun 3 true [.timeout]) RaceEvent.externalAbort).statuses =
        (raceRun 3 true [.timeout]).statuses ∧
      (step (raceRun 3 true [.timeout]) RaceEvent.externalAbort).winningIndex
        = (raceRun 3 true [.timeout]).winningIndex) :=
  ⟨by decide, c8_listener_cleanup 3 true [.timeout]
    (.error failedMessage) (by decide)⟩

/-- C9 counterexample: the claim says `downloading` is emitted only on a
successful race, never on failure.  But `Downloading feed data...` is emitted
at App.tsx:66 as soon as the winner's response headers arrive, before the
body is read: if the body read then fails, the race resolves `Failure` with
`downloading` already emitted. -/
theorem c9_counterexample :
    (raceRun 3 false [.fetchOk 0, .bodyFail 0]).resolved =
      some (.error failedMessage) ∧
    (raceRun 3 false [.fetchOk 0, .bodyFail 0]).statuses =
      [connectingStatus, downloadingStatus] := by
  refine ⟨by decide, by decide⟩

/-- C9 (amended): status callbacks are emitted in the order
`connecting → downloading → parsing`; `downloading` is emitted only after a
winner has been recorded, and `parsing` only on a successful resolution; but
`downloading` may also have been emitted on a race that subsequently fails
(the winner's body read fails, or the deadline fires during the download). -/
theorem c9_amended_status_order (n : Nat) (sp : Bool)
    (events : List RaceEvent) :
    ((raceRun n sp events).statuses = [connectingStatus] ∧
      (raceRun n sp events).winningIndex = -1) ∨
    ((raceRun n sp events).statuses =
        [connectingStatus, downloadingStatus] ∧
      (raceRun n sp events).winningIndex ≠ -1) ∨
    ((raceRun n sp events).statuses =
        [connectingStatus, downloadingStatus, parsingStatus] ∧
      (raceRun n sp events).winningIndex ≠ -1 ∧
      ∃ b, (raceRun n sp events).resolved = some (.ok b)) :=
  (inv_raceRun n sp events).core.statusesShape

/-- C10: `fetch` performs no non-emptiness check on the target: with a
non-cancelled (or absent) external handle the empty-string target runs the
race exactly as any other target (the race outcome does not depend on the
url at all), launching attempts on all three delivery paths, each address
embedding `encodeURIComponent "" = ""`. -/
theorem c10_no_target_validation (events : List RaceEvent) :
    (∀ (url : String) (signal : Option Bool), signal ≠ some true →
      fetchWithParallelProxies url signal events =
        .raced (CORS_PROXIES.map fun f => f url)
          (raceRun NUM_PROXIES signal.isSome events)) ∧
    (CORS_PROXIES.map fun f => f "") =
      ["/api/proxy?url=", "https://api.allorigins.win/raw?url=",
        "https://corsproxy.io/?"] ∧
    encodeURIComponent "" = "" ∧
    FetchRun.launched (fetchWithParallelProxies "" none events) =
      NUM_PROXIES ∧
    NUM_PROXIES = 3 := by
  refine ⟨?_, by decide, rfl, rfl, rfl⟩
  intro url signal hs
  unfold fetchWithParallelProxies
  rw [if_neg hs]

/-- Witness for C10 at the empty target with no signal and with a
non-aborted signal. -/
theorem c10_no_target_validation_witness :
    ((none : Option Bool) ≠ some true ∧
      fetchWithParallelProxies "" none [] =
        .raced (CORS_PROXIES.map fun f => f "")
          (raceRun NUM_PROXIES false [])) ∧
    ((some false : Option Bool) ≠ some true ∧
      fetchWithParallelProxies "" (some false) [] =
        .raced (CORS_PROXIES.map fun f => f "")
          (raceRun NUM_PROXIES true [])) :=
  ⟨⟨by decide, (c10_no_target_validation []).1 "" none (by decide)⟩,
   ⟨by decide, (c10_no_target_validation []).1 "" (some false) (by decide)⟩⟩

end CastAndResponse
